import Mathlib

set_option maxHeartbeats 1000000
set_option linter.unusedVariables false

/-! Shallow embedding of the IFC5 viewer federation/composition engine
    (src/ifc5-viewer/src/ifcx-federation.ts).

    JavaScript plain objects are modelled as insertion-ordered association
    lists `List (String × α)`; `Object.assign`, property writes and reads
    are modelled by `objAssign`, `objSet` and `objLookup` below, which
    reproduce the insertion-order update-in-place / append-at-end
    semantics of JS string-keyed objects.  Values that the source types as
    `string | null` are modelled as `Option String` (`none` = null), and
    the JS truthiness test `if (x)` on such a value is `none`/empty-string
    rejection.  Arbitrary JSON attribute values are modelled by `JVal`. -/

/-- JSON-like values stored in entry attribute maps and schema tables. -/
inductive JVal where
  | jnull : JVal
  | jbool : Bool → JVal
  | jnum : Int → JVal
  | jstr : String → JVal
  | jarr : List JVal → JVal
  | jobj : List (String × JVal) → JVal

/-- JS truthiness of a `JVal` (`null`, `false`, `0`, `""` are falsy;
    arrays and objects are always truthy). -/
def jsTruthy : JVal → Bool
  | JVal.jnull => false
  | JVal.jbool b => b
  | JVal.jnum n => n != 0
  | JVal.jstr s => s != ""
  | JVal.jarr _ => true
  | JVal.jobj _ => true

mutual

/-- JS template-literal stringification of a value, as used by the unit
    suffix code path in `flattenAttributes`. -/
def jsToString : JVal → String
  | JVal.jnull => "null"
  | JVal.jbool b => if b then "true" else "false"
  | JVal.jnum n => toString n
  | JVal.jstr s => s
  | JVal.jarr xs => String.intercalate "," (jsToStringList xs)
  | JVal.jobj _ => "[object Object]"

/-- Stringification of array elements: inside `Array.prototype.toString`,
    `null` renders as the empty string. -/
def jsToStringList : List JVal → List String
  | [] => []
  | x :: rest =>
      (match x with
       | JVal.jnull => ""
       | y => jsToString y) :: jsToStringList rest

end

/-- JS property read `v[k]` where `v` may not be an object: non-objects
    yield `undefined` (modelled as `none`). -/
def jsGet (v : JVal) (k : String) : Option JVal :=
  match v with
  | JVal.jobj fields =>
      match fields.find? (fun f => f.1 == k) with
      | some f => some f.2
      | none => none
  | _ => none

/-- JS property write `target[k] = v` on a plain object: update an
    existing key in place (keeping its position), otherwise append. -/
def objSet {α : Type} : List (String × α) → String → α → List (String × α)
  | [], k, v => [(k, v)]
  | (k', v') :: rest, k, v =>
      if k' = k then (k, v) :: rest else (k', v') :: objSet rest k v

/-- JS property read on a plain object. -/
def objLookup {α : Type} : List (String × α) → String → Option α
  | [], _ => none
  | (k', v') :: rest, k => if k' = k then some v' else objLookup rest k

/-- `Object.assign(target, src)`: copy each own key of `src` onto
    `target`, in `src`'s key order.  (The spread merge
    `\x7b...a, ...b\x7d` produces the same association list.) -/
def objAssign {α : Type} (target src : List (String × α)) : List (String × α) :=
  src.foldl (fun acc kv => objSet acc kv.1 kv.2) target

/-- Raw entry of an input file (interface `IFCXEntry`): the three maps
    are optional in the source (`children?`, `attributes?`,
    `inherits?`), and `children` / `inherits` values are
    `string | null`. -/
structure IFCXEntry where
  path : String
  children : Option (List (String × Option String))
  attributes : Option (List (String × JVal))
  inherits : Option (List (String × Option String))

/-- Parsed content of one file (interface `IFCXData`). -/
structure IFCXData where
  header : JVal
  schemas : List (String × JVal)
  data : List IFCXEntry

/-- File list element (interface `IFCXFile`). -/
structure IFCXFile where
  name : String
  data : IFCXData
  visible : Bool
  index : Nat

/-- Canonical per-path node (interface `InputNode`). -/
structure InputNode where
  path : String
  children : List (String × Option String)
  inherits : List (String × Option String)
  attributes : List (String × JVal)

/-- Composed output tree node (interface `ComposedNode`). -/
structure ComposedNode where
  name : String
  path : String
  attributes : List (String × JVal)
  children : List ComposedNode
  sourceFiles : List String

/-- Helper `addToMultiMap`: push onto the existing group for a key, or
    start a new group (JS `Map` iteration order = key insertion order). -/
def addToMultiMap : List (String × List InputNode) → String → InputNode →
    List (String × List InputNode)
  | [], k, v => [(k, [v])]
  | (k', vs) :: rest, k, v =>
      if k' = k then (k', vs ++ [v]) :: rest
      else (k', vs) :: addToMultiMap rest k v

/-- Conversion of one raw entry in `toInputNodes`: missing maps default
    to empty (`... || \x7b\x7d`). -/
def toInputNode (e : IFCXEntry) : InputNode :=
  { path := e.path
    children := e.children.getD []
    inherits := e.inherits.getD []
    attributes := e.attributes.getD [] }

/-- Method `toInputNodes`: group the federated entry list by path,
    preserving encounter order (the per-entry logging and the USD-mesh
    debug checks in the source have no effect on the result). -/
def toInputNodes (data : List IFCXEntry) : List (String × List InputNode) :=
  data.foldl (fun m e => addToMultiMap m e.path (toInputNode e)) []

/-- Method `collapseNodes`: fold the group left to right, shallow-merging
    each entry's `children`, `inherits` and `attributes` onto the
    accumulator with `Object.assign` (later entries win per key). -/
def collapseNodes (path : String) (ns : List InputNode) : InputNode :=
  ns.foldl
    (fun result node =>
      { result with
        children := objAssign result.children node.children
        inherits := objAssign result.inherits node.inherits
        attributes := objAssign result.attributes node.attributes })
    { path := path, children := [], inherits := [], attributes := [] }

/-- Method `convertNodes`: collapse every group (JS `Map` keys are
    unique, so this is a per-key map). -/
def convertNodes (input : List (String × List InputNode)) :
    List (String × InputNode) :=
  input.map (fun g => (g.1, collapseNodes g.1 g.2))

/-- Method `federateFiles`: schemas of later files overwrite earlier
    ones; entry lists are concatenated in file order.  (The
    `__sourceFile` tag added to each pushed entry is a debug-only extra
    property that nothing downstream reads; it is not modelled.) -/
def federateFiles (files : List IFCXFile) : IFCXData :=
  { header :=
      match files.head? with
      | some f => if jsTruthy f.data.header then f.data.header else JVal.jobj []
      | none => JVal.jobj []
    schemas := files.foldl (fun acc f => objAssign acc f.data.schemas) []
    data := files.foldl (fun acc f => acc ++ f.data.data) [] }

/-- Splitting a character list at every occurrence of `c`; the result is
    always non-empty (the empty list yields one empty group), matching
    `"".split('/') === [""]`. -/
def splitCharList (c : Char) : List Char → List (List Char)
  | [] => [[]]
  | x :: rest =>
      let r := splitCharList c rest
      if x = c then [] :: r
      else
        match r with
        | [] => [[x]]
        | g :: gs => (x :: g) :: gs

/-- JS `s.split('/')` for the single-character separator used throughout
    the source. -/
def splitSlash (s : String) : List String :=
  (splitCharList '/' s.data).map (fun l => String.mk l)

/-- JS `parts.join('/')`. -/
def joinSlash : List String → String
  | [] => ""
  | [s] => s
  | s :: rest => s ++ "/" ++ joinSlash rest

/-- JS `path.includes('/')`. -/
def containsSlash (s : String) : Bool :=
  s.data.contains '/'

/-- Method `getHead`: `path.split('/')[0]`. -/
def getHead (path : String) : String :=
  (splitSlash path).headD ""

/-- Method `getTail`: drop the first `/`-segment and re-join the rest. -/
def getTail (path : String) : String :=
  joinSlash ((splitSlash path).drop 1)

/-- Name given to an expanded node:
    `path.split('/').pop() || path`. -/
def lastSegName (path : String) : String :=
  let s := (splitSlash path).getLastD ""
  if s = "" then path else s

/-- Truthy `string | null` reference values of a map, in map order
    (`Object.values(m).filter(p => p)` and the per-value `if (p)`
    guards). -/
def filterTruthy (vals : List (Option String)) : List String :=
  vals.filterMap (fun v =>
    match v with
    | some s => if s = "" then none else some s
    | none => none)

/-- JS `Set` built from a list: first-occurrence order, duplicates
    dropped. -/
def setOfList (l : List String) : List String :=
  l.foldl (fun acc x => if acc.contains x then acc else acc ++ [x]) []

/-- Heads of all truthy `children` and `inherits` reference values of
    all nodes (the `childPaths` set of `findRootPaths`; the node's own
    references are included, since the source iterates every node). -/
def referencedHeads (nodes : List (String × InputNode)) : List String :=
  nodes.foldl
    (fun acc g =>
      let acc1 :=
        (filterTruthy (g.2.children.map Prod.snd)).foldl
          (fun a p => if a.contains (getHead p) then a else a ++ [getHead p]) acc
      (filterTruthy (g.2.inherits.map Prod.snd)).foldl
        (fun a p => if a.contains (getHead p) then a else a ++ [getHead p]) acc1)
    []

/-- Method `findRootPaths`: paths never referenced as a head and
    containing no `/`. -/
def findRootPaths (nodes : List (String × InputNode)) : List String :=
  let allPaths := setOfList (nodes.map Prod.fst)
  let childPaths := referencedHeads nodes
  allPaths.filter (fun path => !childPaths.contains path && !containsSlash path)

/-- Segment-wise descent of `getNodeByPath` (the source re-splits the
    re-joined tail at each step; on a segment list this is: look up the
    child by name, stop early when the remaining tail re-joins to the
    empty string, i.e. the remaining segments are `[""]`). -/
def getNodeByPathSegs : List String → ComposedNode → Option ComposedNode
  | [], node => some node
  | [s], node => node.children.find? (fun c => c.name == s)
  | s :: rest, node =>
      match node.children.find? (fun c => c.name == s) with
      | none => none
      | some child =>
          if rest = [""] then some child else getNodeByPathSegs rest child

/-- Method `getNodeByPath`: empty path returns the node itself,
    otherwise descend by `/`-separated child names. -/
def getNodeByPath (node : ComposedNode) (path : String) : Option ComposedNode :=
  if path = "" then some node else getNodeByPathSegs (splitSlash path) node

example : getHead "a/b/c" = "a" := by decide
example : getTail "a/b/c" = "b/c" := by decide
example : getHead "wall1" = "wall1" := by decide
example : getTail "wall1" = "" := by decide
example : lastSegName "a/b" = "b" := by decide
example : lastSegName "a/" = "a/" := by decide
example : objAssign [("c", (1 : Int))] [("c", 2), ("d", 3)] = [("c", 2), ("d", 3)] := by decide

/-- Termination measure for `expandNode`: the number of node-table keys
    not yet on the visited chain. -/
def unvisitedCount (nodes : List (String × InputNode)) (visited : List String) : Nat :=
  ((nodes.map Prod.fst).filter (fun k => !visited.contains k)).length

theorem objLookup_mem_keys {α : Type} {l : List (String × α)} {k : String} {v : α}
    (h : objLookup l k = some v) : k ∈ l.map Prod.fst := by
  induction l with
  | nil => simp [objLookup] at h
  | cons hd tl ih =>
      by_cases hk : hd.1 = k
      · simp [hk]
      · simp [objLookup, hk] at h
        simp [ih h]

theorem unvisitedCount_append_lt (nodes : List (String × InputNode))
    (visited : List String) (path : String)
    (hnv : ¬ visited.contains path = true)
    (hmem : path ∈ nodes.map Prod.fst) :
    unvisitedCount nodes (visited ++ [path]) < unvisitedCount nodes visited := by
  unfold unvisitedCount
  have himp : ∀ k : String,
      (!(visited ++ [path]).contains k) = true → (!visited.contains k) = true := by
    intro k hk
    simp only [Bool.not_eq_true'] at hk ⊢
    simp only [List.contains, List.elem_eq_mem, decide_eq_false_iff_not,
      List.mem_append] at hk ⊢
    intro hc
    exact hk (Or.inl hc)
  have hsub := List.monotone_filter_right (nodes.map Prod.fst) himp
  rcases Nat.lt_or_ge (((nodes.map Prod.fst).filter
      (fun k => !(visited ++ [path]).contains k)).length)
      (((nodes.map Prod.fst).filter (fun k => !visited.contains k)).length) with h | h
  · exact h
  · exfalso
    have heq := hsub.eq_of_length (Nat.le_antisymm hsub.length_le h)
    have hin : path ∈ (nodes.map Prod.fst).filter (fun k => !visited.contains k) := by
      refine List.mem_filter.mpr ⟨hmem, ?_⟩
      simp only [Bool.not_eq_true']
      exact Bool.not_eq_true _ ▸ (Bool.eq_false_iff.mpr hnv)
    rw [← heq] at hin
    have := (List.mem_filter.mp hin).2
    simp only [Bool.not_eq_true', List.contains, List.elem_eq_mem,
      decide_eq_false_iff_not, List.mem_append] at this
    exact this (Or.inr (by simp))

mutual

/-- Method `expandNode(path, nodes, schemas, visited)`: cycle guard,
    missing-node guard, then a composed node whose attributes first merge
    in the inherited targets and whose children are the expanded child
    references.  (The `schemas` parameter of the source method is never
    read, only passed through, and is omitted.) -/
def expandNode (nodes : List (String × InputNode)) (path : String)
    (visited : List String) : Option ComposedNode :=
  if hv : visited.contains path then none
  else
    match hn : objLookup nodes path with
    | none => none
    | some node =>
        let newVisited := visited ++ [path]
        some
          { name := lastSegName path
            path := path
            attributes := expandInherits nodes newVisited node.inherits node.attributes
            children := expandChildren nodes newVisited node.children
            sourceFiles := [] }
termination_by (unvisitedCount nodes visited, 0)
decreasing_by
  all_goals
    exact Prod.Lex.left _ _
      (unvisitedCount_append_lt nodes visited path hv (objLookup_mem_keys hn))

/-- Inheritance loop of `expandNode`: for each truthy reference, expand
    its head with the extended visited chain, descend to the tail
    subnode, then perform
    `Object.assign(composed.attributes, target.attributes,
    composed.attributes)`.  Because the third source aliases the target,
    the final self-copy is the identity: the net effect is that the
    inherited attributes overwrite the accumulator, modelled by the
    double `objAssign` below. -/
def expandInherits (nodes : List (String × InputNode)) (newVisited : List String)
    (entries : List (String × Option String)) (acc : List (String × JVal)) :
    List (String × JVal) :=
  match entries with
  | [] => acc
  | (_, v) :: rest =>
      let acc' :=
        match v with
        | none => acc
        | some s =>
            if s = "" then acc
            else
              match expandNode nodes (getHead s) newVisited with
              | none => acc
              | some inh =>
                  let tail := getTail s
                  match (if tail = "" then some inh else getNodeByPath inh tail) with
                  | none => acc
                  | some target =>
                      let merged := objAssign acc target.attributes
                      objAssign merged merged
      expandInherits nodes newVisited rest acc'
termination_by (unvisitedCount nodes newVisited, entries.length + 1)

/-- Children loop of `expandNode`: for each truthy reference, expand its
    head with the extended visited chain, descend to the tail subnode,
    rename the result to the child-slot key and append it. -/
def expandChildren (nodes : List (String × InputNode)) (newVisited : List String)
    (entries : List (String × Option String)) : List ComposedNode :=
  match entries with
  | [] => []
  | (childName, v) :: rest =>
      let tailList := expandChildren nodes newVisited rest
      match v with
      | none => tailList
      | some s =>
          if s = "" then tailList
          else
            match expandNode nodes (getHead s) newVisited with
            | none => tailList
            | some childNode =>
                let tail := getTail s
                match (if tail = "" then some childNode else getNodeByPath childNode tail) with
                | none => tailList
                | some target => { target with name := childName } :: tailList
termination_by (unvisitedCount nodes newVisited, entries.length + 1)

end

/-- Method `createComposedTree`: root detection, the transparent
    inheritance-only redirect for a single root, and the artificial
    "Root" wrapper for multiple roots.  In the single-root redirect
    branch the source first truthy-filters the inherit values
    (`Object.values(rootNode.inherits).filter(p => p)`) and uses the
    target directly when exactly one remains; in the multi-root branch
    every truthy inherit value of a redirect candidate contributes a
    child. -/
def createComposedTree (nodes : List (String × InputNode))
    (schemas : List (String × JVal)) : Option ComposedNode :=
  match findRootPaths nodes with
  | [] => none
  | [rootPath] =>
      let rootNode? := objLookup nodes rootPath
      let redirect :=
        match rootNode? with
        | some rn => rn.children.isEmpty && rn.attributes.isEmpty && !rn.inherits.isEmpty
        | none => false
      if redirect then
        match rootNode? with
        | some rn =>
            match filterTruthy (rn.inherits.map Prod.snd) with
            | [inheritPath] => expandNode nodes (getHead inheritPath) []
            | inheritPaths =>
                some
                  { name := "Root", path := "", attributes := []
                    children :=
                      inheritPaths.filterMap (fun p => expandNode nodes (getHead p) [])
                    sourceFiles := [] }
        | none => none
      else expandNode nodes rootPath []
  | rootPaths =>
      some
        { name := "Root", path := "", attributes := []
          children :=
            rootPaths.foldl
              (fun acc rootPath =>
                let rootNode? := objLookup nodes rootPath
                let redirect :=
                  match rootNode? with
                  | some rn =>
                      rn.children.isEmpty && rn.attributes.isEmpty && !rn.inherits.isEmpty
                  | none => false
                if redirect then
                  match rootNode? with
                  | some rn =>
                      acc ++ (filterTruthy (rn.inherits.map Prod.snd)).filterMap
                        (fun p => expandNode nodes (getHead p) [])
                  | none => acc
                else
                  match expandNode nodes rootPath [] with
                  | some child => acc ++ [child]
                  | none => acc)
              []
          sourceFiles := [] }

/-- Pure federate → group → collapse → compose pipeline run by
    `recompose` on the visible files (`validateSchemas` only logs
    warnings and has no effect on the result, so it is not modelled). -/
def composePipeline (visibleFiles : List IFCXFile) : Option ComposedNode :=
  let federatedData := federateFiles visibleFiles
  let inputNodes := toInputNodes federatedData.data
  let compositionNodes := convertNodes inputNodes
  createComposedTree compositionNodes federatedData.schemas

/-- Observable state of an `IFCXFederation` instance: the ordered file
    list, the published composed root, and (as an observation of the
    callback protocol, not a source field) the argument of the most
    recent `onCompositionChanged` invocation. -/
structure FedState where
  files : List IFCXFile
  composedRoot : Option ComposedNode
  lastNotified : Option (Option ComposedNode)

/-- Method `recompose`, parameterised by the outcome of the pipeline so
    that a thrown exception (`Except.error`) can be modelled: the
    source's `try`/`catch` sets the root to null and notifies null on
    any exception, and the empty-visible-files case short-circuits the
    same way before the pipeline runs. -/
def recomposeWith (pipeline : List IFCXFile → Except String (Option ComposedNode))
    (s : FedState) : FedState :=
  let visibleFiles := s.files.filter (fun f => f.visible)
  if visibleFiles.length = 0 then
    { s with composedRoot := none, lastNotified := some none }
  else
    match pipeline visibleFiles with
    | Except.ok root => { s with composedRoot := root, lastNotified := some root }
    | Except.error _ => { s with composedRoot := none, lastNotified := some none }

/-- Method `recompose` with the actual (total, non-throwing) pipeline. -/
def recompose (s : FedState) : FedState :=
  recomposeWith (fun vf => Except.ok (composePipeline vf)) s

/-- Method `getComposedRoot`. -/
def getComposedRoot (s : FedState) : Option ComposedNode :=
  s.composedRoot

/-- Re-indexing after a list mutation
    (`this.files.forEach((file, i) => file.index = i)`). -/
def reindex (files : List IFCXFile) : List IFCXFile :=
  (files.enum).map (fun p => { p.2 with index := p.1 })

/-- Insertion at a position (`splice(toIndex, 0, movedFile)`); an index
    beyond the end appends, as in JS. -/
def insertAt {α : Type} : Nat → α → List α → List α
  | _, x, [] => [x]
  | 0, x, l => x :: l
  | n + 1, x, y :: l => y :: insertAt n x l

/-- Method `addFile`: append a visible file at the end and recompose.
    (The `onFilesChanged` callback carries no data and is not
    modelled.) -/
def addFile (s : FedState) (name : String) (data : IFCXData) : FedState :=
  let file : IFCXFile := { name := name, data := data, visible := true,
                           index := s.files.length }
  recompose { s with files := s.files ++ [file] }

/-- Method `removeFile`: bounds-checked (`index >= 0 && index < length`;
    JS indices are modelled as `Int` so that negative arguments are
    representable); out-of-range indices leave the state untouched. -/
def removeFile (s : FedState) (index : Int) : FedState :=
  if 0 ≤ index ∧ index < (s.files.length : Int) then
    recompose { s with files := reindex (s.files.eraseIdx index.toNat) }
  else s

/-- Method `moveFile`: both indices are bounds-checked; the element is
    spliced out and re-inserted at the target position. -/
def moveFile (s : FedState) (fromIndex toIndex : Int) : FedState :=
  if 0 ≤ fromIndex ∧ fromIndex < (s.files.length : Int) ∧
     0 ≤ toIndex ∧ toIndex < (s.files.length : Int) then
    match s.files.get? fromIndex.toNat with
    | some movedFile =>
        recompose
          { s with files :=
              reindex (insertAt toIndex.toNat movedFile (s.files.eraseIdx fromIndex.toNat)) }
    | none => s
  else s

/-- Method `setFileVisibility`: bounds-checked in-place update of the
    `visible` flag. -/
def setFileVisibility (s : FedState) (index : Int) (visible : Bool) : FedState :=
  if 0 ≤ index ∧ index < (s.files.length : Int) then
    match s.files.get? index.toNat with
    | some f => recompose { s with files := s.files.set index.toNat { f with visible := visible } }
    | none => s
  else s

/-- Unit-suffix branch of `flattenAttributes` for a non-object
    attribute: look up the attribute name in the schema table, and when
    `schema.value.quantityKind` is truthy and equal to `Length`,
    `Volume` or `Area`, replace the value with its stringification plus
    the unit suffix; any other quantity kind leaves the value as-is
    (the suffix defaults to the empty string, which is falsy). -/
def annotateUnit (schemas : List (String × JVal)) (attrName : String)
    (attr : JVal) : JVal :=
  match objLookup schemas attrName with
  | none => attr
  | some schema =>
      if jsTruthy schema then
        match jsGet schema "value" with
        | none => attr
        | some sv =>
            if jsTruthy sv then
              match jsGet sv "quantityKind" with
              | none => attr
              | some qk =>
                  if jsTruthy qk then
                    let suffixStr :=
                      match qk with
                      | JVal.jstr "Length" => "m"
                      | JVal.jstr "Volume" => "m³"
                      | JVal.jstr "Area" => "m²"
                      | _ => ""
                    if suffixStr = "" then attr
                    else JVal.jstr (jsToString attr ++ " " ++ suffixStr)
                  else attr
            else attr
      else attr

/-- Loop body of `flattenAttributes` for one attribute: a plain-object
    value (truthy, typeof object, not an array — i.e. exactly the
    `jobj` case) is flattened one level into `originalKey::subKey`
    entries; every other value goes through the unit-suffix branch. -/
def flattenStep (schemas : List (String × JVal))
    (flattened : List (String × JVal)) (kv : String × JVal) :
    List (String × JVal) :=
  match kv.2 with
  | JVal.jobj fields =>
      fields.foldl (fun acc f => objSet acc (kv.1 ++ "::" ++ f.1) f.2) flattened
  | _ => objSet flattened kv.1 (annotateUnit schemas kv.1 kv.2)

/-- Method `flattenAttributes`: fold the loop body over the attribute
    entries, starting from a fresh empty object. -/
def flattenAttributes (attributes schemas : List (String × JVal)) :
    List (String × JVal) :=
  attributes.foldl (flattenStep schemas) []

/-- Method `getFlattenedAttributes`: the schema dictionary is rebuilt by
    spreading every file's schemas in list order — note that the source
    reduces over `this.files` without filtering on visibility. -/
def getFlattenedAttributes (s : FedState) (node : ComposedNode) :
    List (String × JVal) :=
  let schemas := s.files.foldl (fun acc file => objAssign acc file.data.schemas) []
  flattenAttributes node.attributes schemas

/-- Modelled from the spec: the flattened attribute map described in
    §4.6 / claim C8 — each plain-object attribute contributes
    `originalKey::subKey` entries one level deep, every other attribute
    is kept under its own key with the unit annotation applied. -/
def specFlattened (attributes schemas : List (String × JVal)) :
    List (String × JVal) :=
  attributes.flatMap
    (fun kv =>
      match kv.2 with
      | JVal.jobj fields => fields.map (fun f => (kv.1 ++ "::" ++ f.1, f.2))
      | _ => [(kv.1, annotateUnit schemas kv.1 kv.2)])

/-- Keys produced by flattening, used to state the no-collision
    hypothesis of the C8 theorem. -/
def flatKeys (attributes : List (String × JVal)) : List String :=
  attributes.flatMap
    (fun kv =>
      match kv.2 with
      | JVal.jobj fields => fields.map (fun f => kv.1 ++ "::" ++ f.1)
      | _ => [kv.1])

/-- Modelled from the spec: the root-candidate set described by claim
    C5 — paths never named as the head segment of any OTHER node's
    `children` or `inherits` reference and containing no `/`.  This is
    the comparison definition for the refinement check against
    `findRootPaths`, which also counts a node's own references. -/
def specRootPaths (nodes : List (String × InputNode)) : List String :=
  (setOfList (nodes.map Prod.fst)).filter
    (fun path =>
      (nodes.all (fun g =>
        g.1 == path ||
          ((filterTruthy (g.2.children.map Prod.snd)).all
            (fun p => getHead p != path) &&
           (filterTruthy (g.2.inherits.map Prod.snd)).all
            (fun p => getHead p != path)))) &&
      !containsSlash path)

/-- Record data of one file as observed through `getFiles()` (the
    `\x7bname, visible, index\x7d` metadata of claim C9). -/
structure FileRec where
  name : String
  visible : Bool
  index : Nat

/-- Reference-semantics model for `getFiles()` (claim C9): JS arrays and
    file-record objects live on a heap and are passed around as
    references, so that mutations through a returned reference are
    observable.  `arrays` maps an array reference to the list of record
    references it holds; `records` maps a record reference to its
    data. -/
structure Heap where
  arrays : List (List Nat)
  records : List FileRec

/-- Method `getFiles` in the reference model:
    `return [...this.files]` allocates a fresh array object whose
    contents are the same record references, and returns the new array's
    reference. -/
def getFilesAlloc (h : Heap) (filesArr : Nat) : Heap × Nat :=
  let contents := h.arrays[filesArr]?.getD []
  ({ h with arrays := h.arrays ++ [contents] }, h.arrays.length)

/-- Caller-side mutation of an array object (e.g. emptying or reordering
    the array returned by `getFiles`). -/
def setArrayContents (h : Heap) (a : Nat) (contents : List Nat) : Heap :=
  { h with arrays := h.arrays.set a contents }

/-- Caller-side mutation of a file record reached through a returned
    reference (e.g. `got[0].visible = false`). -/
def setRecVisible (h : Heap) (r : Nat) (visible : Bool) : Heap :=
  { h with records :=
      match h.records[r]? with
      | some rec => h.records.set r { rec with visible := visible }
      | none => h.records }

/-- Internal view the federation reads on recomposition: the `visible`
    flags of the records referenced by its own files array. -/
def internalVisibles (h : Heap) (filesArr : Nat) : List Bool :=
  (h.arrays[filesArr]?.getD []).map
    (fun r => (h.records[r]?.map (fun rec => rec.visible)).getD false)

/-! Lemmas about the JS object model. -/

theorem objLookup_objSet_self {α : Type} (l : List (String × α)) (k : String) (v : α) :
    objLookup (objSet l k v) k = some v := by
  induction l with
  | nil => simp [objSet, objLookup]
  | cons hd tl ih =>
      obtain ⟨k', v'⟩ := hd
      by_cases h : k' = k
      · simp [objSet, objLookup, h]
      · simp [objSet, objLookup, h, ih]

theorem objLookup_objSet_other {α : Type} (l : List (String × α)) (k k' : String) (v : α)
    (h : k' ≠ k) : objLookup (objSet l k' v) k = objLookup l k := by
  induction l with
  | nil => simp [objSet, objLookup, h]
  | cons hd tl ih =>
      obtain ⟨k'', v''⟩ := hd
      by_cases h2 : k'' = k'
      · simp [objSet, objLookup, h2, h]
      · by_cases h3 : k'' = k
        · subst h3
          simp [objSet, objLookup, h2, show ¬ k'' = k' from h2]
        · simp [objSet, objLookup, h2, h3, ih]

theorem objLookup_eq_none_of_not_mem {α : Type} {l : List (String × α)} {k : String}
    (h : k ∉ l.map Prod.fst) : objLookup l k = none := by
  induction l with
  | nil => rfl
  | cons hd tl ih =>
      obtain ⟨k', v'⟩ := hd
      simp only [List.map_cons, List.mem_cons] at h
      push_neg at h
      simp [objLookup, show ¬ k' = k from fun he => h.1 he.symm, ih h.2]

theorem objLookup_objAssign {α : Type} (t s : List (String × α)) (k : String)
    (hs : (s.map Prod.fst).Nodup) :
    objLookup (objAssign t s) k = (objLookup s k).or (objLookup t k) := by
  induction s generalizing t with
  | nil => simp [objAssign, objLookup, Option.or]
  | cons hd tl ih =>
      obtain ⟨k', v'⟩ := hd
      simp only [List.map_cons, List.nodup_cons] at hs
      have step : objAssign t ((k', v') :: tl) = objAssign (objSet t k' v') tl := rfl
      rw [step, ih _ hs.2]
      by_cases h : k' = k
      · subst h
        have : objLookup tl k' = none :=
          objLookup_eq_none_of_not_mem hs.1
        simp [objLookup, this, objLookup_objSet_self, Option.or]
      · simp [objLookup, h, objLookup_objSet_other _ _ _ _ h]

theorem objSet_fresh {α : Type} {l : List (String × α)} {k : String} {v : α}
    (h : k ∉ l.map Prod.fst) : objSet l k v = l ++ [(k, v)] := by
  induction l with
  | nil => rfl
  | cons hd tl ih =>
      obtain ⟨k', v'⟩ := hd
      simp only [List.map_cons, List.mem_cons] at h
      push_neg at h
      simp [objSet, show ¬ k' = k from fun he => h.1 he.symm, ih h.2]

theorem mem_setOfList {l : List String} {x : String} : x ∈ setOfList l ↔ x ∈ l := by
  have go : ∀ (l acc : List String),
      x ∈ l.foldl (fun acc y => if acc.contains y then acc else acc ++ [y]) acc ↔
        x ∈ acc ∨ x ∈ l := by
    intro l
    induction l with
    | nil => simp
    | cons hd tl ih =>
        intro acc
        simp only [List.foldl_cons]
        by_cases h : acc.contains hd
        · rw [if_pos h, ih]
          constructor
          · rintro (ha | ht)
            · exact Or.inl ha
            · exact Or.inr (List.mem_cons_of_mem _ ht)
          · rintro (ha | hm)
            · exact Or.inl ha
            · rcases List.mem_cons.mp hm with he | ht
              · subst he
                exact Or.inl (List.elem_iff.mp h)
              · exact Or.inr ht
        · rw [if_neg h, ih]
          simp only [List.mem_append, List.mem_singleton, List.mem_cons]
          tauto
  rw [setOfList, go]
  simp

/-! Lemmas connecting the grouping and collapsing stages. -/

theorem addToMultiMap_lookup_eq (m : List (String × List InputNode)) (k : String)
    (v : InputNode) :
    objLookup (addToMultiMap m k v) k = some ((objLookup m k).getD [] ++ [v]) := by
  induction m with
  | nil => simp [addToMultiMap, objLookup]
  | cons hd tl ih =>
      obtain ⟨k', vs⟩ := hd
      by_cases h : k' = k
      · simp [addToMultiMap, objLookup, h]
      · simp [addToMultiMap, objLookup, h, ih]

theorem addToMultiMap_lookup_ne (m : List (String × List InputNode)) (k x : String)
    (v : InputNode) (h : x ≠ k) :
    objLookup (addToMultiMap m k v) x = objLookup m x := by
  induction m with
  | nil => simp [addToMultiMap, objLookup, show ¬ k = x from fun he => h he.symm]
  | cons hd tl ih =>
      obtain ⟨k', vs⟩ := hd
      by_cases h2 : k' = k
      · subst h2
        simp [addToMultiMap, objLookup, show ¬ k' = x from fun he => h he.symm]
      · by_cases h3 : k' = x
        · subst h3
          simp [addToMultiMap, objLookup, h2, show ¬ k' = k from h2]
        · simp [addToMultiMap, objLookup, h2, h3, ih]

theorem toInputNodes_go (data : List IFCXEntry) (m : List (String × List InputNode))
    (x : String) :
    objLookup (data.foldl (fun m e => addToMultiMap m e.path (toInputNode e)) m) x =
      (match objLookup m x, (data.filter (fun e => e.path == x)).map toInputNode with
       | some g, add => some (g ++ add)
       | none, [] => none
       | none, add => some add) := by
  induction data generalizing m with
  | nil =>
      simp only [List.foldl_nil, List.filter_nil, List.map_nil]
      match h : objLookup m x with
      | some g => simp [h]
      | none => simp [h]
  | cons e rest ih =>
      simp only [List.foldl_cons]
      rw [ih]
      by_cases hp : e.path = x
      · subst hp
        rw [addToMultiMap_lookup_eq]
        have hb : (e.path == e.path) = true := beq_self_eq_true e.path
        simp only [List.filter_cons, hb, if_pos, List.map_cons]
        match h : objLookup m e.path with
        | some g => simp [h]
        | none => simp [h]
      · rw [addToMultiMap_lookup_ne _ _ _ _ (fun he => hp he.symm)]
        have hb : (e.path == x) = false := beq_eq_false_iff_ne.mpr hp
        simp only [List.filter_cons, hb, Bool.false_eq_true, ite_false]

theorem convertNodes_lookup (input : List (String × List InputNode)) (x : String) :
    objLookup (convertNodes input) x =
      (objLookup input x).map (collapseNodes x) := by
  induction input with
  | nil => simp [convertNodes, objLookup]
  | cons hd tl ih =>
      obtain ⟨k, g⟩ := hd
      by_cases h : k = x
      · subst h
        simp [convertNodes, objLookup]
      · simp only [convertNodes, List.map_cons, objLookup, if_neg h]
        exact ih

/-! Claim C1. -/

/-- Failing input for claim C1: node `n` defines `color = "blue"` and
    inherits from `m`, which defines `color = "red"`. -/
def c1Nodes : List (String × InputNode) :=
  [("n", { path := "n", children := [], inherits := [("i", some "m")],
           attributes := [("color", JVal.jstr "blue")] }),
   ("m", { path := "m", children := [], inherits := [],
           attributes := [("color", JVal.jstr "red")] })]

/-- C1: the claim (and the source's own inline comment "current node
    wins") says a node's own attribute survives a key collision with an
    inherited attribute, but
    `Object.assign(composed.attributes, target.attributes,
    composed.attributes)` aliases its third source to its target, so the
    final self-copy is the identity and the inherited value overwrites
    the node's own value: expanding `n` yields `color = "red"`, not the
    claimed `"blue"`. -/
theorem C1_inherited_value_overwrites_own :
    expandNode c1Nodes "n" [] =
      some { name := "n", path := "n",
             attributes := [("color", JVal.jstr "red")],
             children := [], sourceFiles := [] } := by
  simp [c1Nodes, expandNode, expandInherits, expandChildren, objLookup, objAssign,
    objSet, getHead, getTail, lastSegName, splitSlash, splitCharList, joinSlash,
    List.contains, List.foldl]

/-! Claim C3. -/

/-- Cyclic table for claim C3: `a` inherits `b` and `b` inherits `a`. -/
def c3Nodes : List (String × InputNode) :=
  [("a", { path := "a", children := [], inherits := [("i", some "b")],
           attributes := [("pa", JVal.jstr "va")] }),
   ("b", { path := "b", children := [], inherits := [("j", some "a")],
           attributes := [("pb", JVal.jstr "vb")] })]

/-- C3: `expandNode` is a total function of the embedding (accepted by
    the termination checker via the strictly shrinking set of unvisited
    node keys), a path already on the visited chain makes the branch
    return nothing, and on the two-node cycle each node gains exactly
    the other's attributes one non-circular hop deep: `a` composes to
    `pa, pb` and `b` to `pb, pa`, with the circular second hop
    dropped. -/
theorem C3_cycle_termination_and_one_hop :
    (∀ (nodes : List (String × InputNode)) (path : String) (visited : List String),
        visited.contains path = true → expandNode nodes path visited = none) ∧
    expandNode c3Nodes "a" [] =
      some { name := "a", path := "a",
             attributes := [("pa", JVal.jstr "va"), ("pb", JVal.jstr "vb")],
             children := [], sourceFiles := [] } ∧
    expandNode c3Nodes "b" [] =
      some { name := "b", path := "b",
             attributes := [("pb", JVal.jstr "vb"), ("pa", JVal.jstr "va")],
             children := [], sourceFiles := [] } := by
  refine ⟨?_, ?_, ?_⟩
  · intro nodes path visited h
    rw [expandNode]
    rw [dif_pos h]
  · simp [c3Nodes, expandNode, expandInherits, expandChildren, objLookup, objAssign,
      objSet, getHead, getTail, lastSegName, splitSlash, splitCharList, joinSlash,
      List.contains, List.foldl]
  · simp [c3Nodes, expandNode, expandInherits, expandChildren, objLookup, objAssign,
      objSet, getHead, getTail, lastSegName, splitSlash, splitCharList, joinSlash,
      List.contains, List.foldl]

/-- Witness for C3: the cycle-guard conjunct applied at a concrete
    visited chain. -/
theorem C3_cycle_termination_and_one_hop_witness :
    expandNode c3Nodes "a" ["a"] = none :=
  C3_cycle_termination_and_one_hop.1 c3Nodes "a" ["a"] (by decide)

/-! Claim C6. -/

/-- C6: whenever recomposition cannot produce a tree — zero visible
    files, or an exception thrown anywhere in the
    federate/collapse/expand pipeline — the published root becomes null,
    the composition-changed callback is invoked with null, and the file
    list is exactly what it was before the call. -/
theorem C6_failed_recomposition_nulls_root
    (pipeline : List IFCXFile → Except String (Option ComposedNode)) (s : FedState)
    (h : (s.files.filter (fun f => f.visible)).length = 0 ∨
         ∃ msg, pipeline (s.files.filter (fun f => f.visible)) = Except.error msg) :
    (recomposeWith pipeline s).composedRoot = none ∧
    (recomposeWith pipeline s).lastNotified = some none ∧
    (recomposeWith pipeline s).files = s.files := by
  unfold recomposeWith
  rcases h with h | ⟨msg, h⟩
  · simp [h]
  · by_cases hz : (s.files.filter (fun f => f.visible)).length = 0
    · simp [hz]
    · simp [hz, h]

/-- State with one visible file, a published tree and no notification
    yet, used to witness C6. -/
def c6State : FedState :=
  { files := [{ name := "f",
                data := { header := JVal.jnull, schemas := [], data := [] },
                visible := true, index := 0 }]
    composedRoot := some { name := "x", path := "x", attributes := [],
                           children := [], sourceFiles := [] }
    lastNotified := none }

/-- Witness for C6: an always-throwing pipeline at a concrete state. -/
theorem C6_failed_recomposition_nulls_root_witness :
    (recomposeWith (fun _ => Except.error "boom") c6State).composedRoot = none ∧
    (recomposeWith (fun _ => Except.error "boom") c6State).lastNotified = some none ∧
    (recomposeWith (fun _ => Except.error "boom") c6State).files = c6State.files :=
  C6_failed_recomposition_nulls_root (fun _ => Except.error "boom") c6State
    (Or.inr ⟨"boom", rfl⟩)

/-! Claim C7. -/

/-- C7: `removeFile`, `moveFile` and `setFileVisibility` with any index
    argument outside `[0, number of files)` raise no error and leave the
    entire federation state — file list, published tree and notification
    observation — unchanged. -/
theorem C7_out_of_range_mutations_ignored (s : FedState) (i j : Int) (b : Bool) :
    (¬ (0 ≤ i ∧ i < (s.files.length : Int)) →
        removeFile s i = s ∧ setFileVisibility s i b = s) ∧
    ((¬ (0 ≤ i ∧ i < (s.files.length : Int)) ∨
      ¬ (0 ≤ j ∧ j < (s.files.length : Int))) →
        moveFile s i j = s) := by
  constructor
  · intro h
    constructor
    · unfold removeFile
      rw [if_neg h]
    · unfold setFileVisibility
      rw [if_neg h]
  · intro h
    unfold moveFile
    rw [if_neg ?_]
    rintro ⟨h1, h2, h3, h4⟩
    rcases h with h | h
    · exact h ⟨h1, h2⟩
    · exact h ⟨h3, h4⟩

/-- State with one file, used to witness C7. -/
def c7State : FedState :=
  { files := [{ name := "f",
                data := { header := JVal.jnull, schemas := [], data := [] },
                visible := true, index := 0 }]
    composedRoot := none
    lastNotified := none }

/-- Witness for C7: index `-1` (and target `5`) on a one-file state. -/
theorem C7_out_of_range_mutations_ignored_witness :
    removeFile c7State (-1) = c7State ∧ setFileVisibility c7State (-1) true = c7State ∧
    moveFile c7State (-1) 0 = c7State ∧ moveFile c7State 0 5 = c7State :=
  ⟨((C7_out_of_range_mutations_ignored c7State (-1) 0 true).1 (by decide)).1,
   ((C7_out_of_range_mutations_ignored c7State (-1) 0 true).1 (by decide)).2,
   (C7_out_of_range_mutations_ignored c7State (-1) 0 true).2 (Or.inl (by decide)),
   (C7_out_of_range_mutations_ignored c7State 0 5 true).2 (Or.inr (by decide))⟩

/-! Claim C10. -/

theorem recompose_notified_eq_root (s : FedState) :
    (recompose s).lastNotified = some (recompose s).composedRoot := by
  unfold recompose recomposeWith
  by_cases h : (s.files.filter (fun f => f.visible)).length = 0
  · simp [h]
  · simp [h]

/-- C10: after any of the four file-list mutators, the published
    composed root (`getComposedRoot`) equals the value passed to the
    most recent `onCompositionChanged` invocation, provided the state
    already satisfied that agreement before the call (every `recompose`
    path assigns the root before notifying, and out-of-range mutators
    neither recompose nor notify). -/
theorem C10_published_root_matches_last_notification (s : FedState)
    (hInv : ∀ r, s.lastNotified = some r → getComposedRoot s = r) :
    (∀ name data r, (addFile s name data).lastNotified = some r →
        getComposedRoot (addFile s name data) = r) ∧
    (∀ i r, (removeFile s i).lastNotified = some r →
        getComposedRoot (removeFile s i) = r) ∧
    (∀ i j r, (moveFile s i j).lastNotified = some r →
        getComposedRoot (moveFile s i j) = r) ∧
    (∀ i b r, (setFileVisibility s i b).lastNotified = some r →
        getComposedRoot (setFileVisibility s i b) = r) := by
  have hrec : ∀ (t : FedState) r, (recompose t).lastNotified = some r →
      getComposedRoot (recompose t) = r := by
    intro t r h
    have h2 := recompose_notified_eq_root t
    rw [h] at h2
    exact (Option.some.inj h2).symm
  refine ⟨?_, ?_, ?_, ?_⟩
  · intro name data r h
    exact hrec _ r h
  · intro i r h
    unfold removeFile at h ⊢
    by_cases hc : 0 ≤ i ∧ i < (s.files.length : Int)
    · rw [if_pos hc] at h ⊢
      exact hrec _ r h
    · rw [if_neg hc] at h ⊢
      exact hInv r h
  · intro i j r h
    unfold moveFile at h ⊢
    by_cases hc : 0 ≤ i ∧ i < (s.files.length : Int) ∧
        0 ≤ j ∧ j < (s.files.length : Int)
    · rw [if_pos hc] at h ⊢
      match hm : s.files.get? i.toNat with
      | some f =>
          rw [hm] at h
          exact hrec _ r h
      | none =>
          rw [hm] at h
          exact hInv r h
    · rw [if_neg hc] at h ⊢
      exact hInv r h
  · intro i b r h
    unfold setFileVisibility at h ⊢
    by_cases hc : 0 ≤ i ∧ i < (s.files.length : Int)
    · rw [if_pos hc] at h ⊢
      match hm : s.files.get? i.toNat with
      | some f =>
          rw [hm] at h
          exact hrec _ r h
      | none =>
          rw [hm] at h
          exact hInv r h
    · rw [if_neg hc] at h ⊢
      exact hInv r h

/-- Fresh federation state, used to witness C10. -/
def c10State : FedState := { files := [], composedRoot := none, lastNotified := none }

/-- Empty file content, used to witness C10. -/
def c10Data : IFCXData := { header := JVal.jnull, schemas := [], data := [] }

/-- Witness for C10: adding an empty file to a fresh federation
    publishes exactly the value of the notification it fires. -/
theorem C10_published_root_matches_last_notification_witness :
    getComposedRoot (addFile c10State "f" c10Data) = none :=
  (C10_published_root_matches_last_notification c10State
      (fun r h => nomatch h)).1 "f" c10Data none rfl

/-! Claim C2. -/

/-- C2: when the federated entries at path `x` (in federation order:
    visible files in list order, entries in file order) are exactly the
    entry of an earlier file A followed by the entry of a later file B,
    the collapsed canonical node at `x` takes B's value for every
    attribute/child/inherit key B defines and keeps A's value for every
    key only A defines — a shallow per-key last-wins merge that never
    loses keys present only in the earlier entry.  (The key-`Nodup`
    hypotheses hold for any map parsed from a JSON object, which cannot
    repeat keys.) -/
theorem C2_override_law
    (files : List IFCXFile) (x : String) (eA eB : IFCXEntry)
    (hfed : ((federateFiles (files.filter (fun f => f.visible))).data.filter
               (fun e => e.path == x)) = [eA, eB])
    (hA : ((toInputNode eA).attributes.map Prod.fst).Nodup ∧
          ((toInputNode eA).children.map Prod.fst).Nodup ∧
          ((toInputNode eA).inherits.map Prod.fst).Nodup)
    (hB : ((toInputNode eB).attributes.map Prod.fst).Nodup ∧
          ((toInputNode eB).children.map Prod.fst).Nodup ∧
          ((toInputNode eB).inherits.map Prod.fst).Nodup) :
    objLookup (convertNodes (toInputNodes
        (federateFiles (files.filter (fun f => f.visible))).data)) x =
      some (collapseNodes x [toInputNode eA, toInputNode eB]) ∧
    (∀ k, objLookup (collapseNodes x [toInputNode eA, toInputNode eB]).attributes k =
      (objLookup (toInputNode eB).attributes k).or
        (objLookup (toInputNode eA).attributes k)) ∧
    (∀ k, objLookup (collapseNodes x [toInputNode eA, toInputNode eB]).children k =
      (objLookup (toInputNode eB).children k).or
        (objLookup (toInputNode eA).children k)) ∧
    (∀ k, objLookup (collapseNodes x [toInputNode eA, toInputNode eB]).inherits k =
      (objLookup (toInputNode eB).inherits k).or
        (objLookup (toInputNode eA).inherits k)) := by
  have hor : ∀ {α : Type} (a b : List (String × α)) (k : String),
      (a.map Prod.fst).Nodup → (b.map Prod.fst).Nodup →
      objLookup (objAssign (objAssign [] a) b) k =
        (objLookup b k).or (objLookup a k) := by
    intro α a b k ha hb
    rw [objLookup_objAssign _ _ _ hb, objLookup_objAssign _ _ _ ha]
    cases objLookup b k <;> cases objLookup a k <;> simp [objLookup, Option.or]
  refine ⟨?_, ?_, ?_, ?_⟩
  · have hgrp : objLookup (toInputNodes
        (federateFiles (files.filter (fun f => f.visible))).data) x =
        some [toInputNode eA, toInputNode eB] := by
      unfold toInputNodes
      rw [toInputNodes_go, hfed]
      rfl
    rw [convertNodes_lookup, hgrp]
    rfl
  · intro k
    exact hor (toInputNode eA).attributes (toInputNode eB).attributes k hA.1 hB.1
  · intro k
    exact hor (toInputNode eA).children (toInputNode eB).children k hA.2.1 hB.2.1
  · intro k
    exact hor (toInputNode eA).inherits (toInputNode eB).inherits k hA.2.2 hB.2.2

/-- Entry of the earlier file in the C2 witness. -/
def c2eA : IFCXEntry :=
  { path := "x", children := none, inherits := none,
    attributes := some [("c", JVal.jnum 1)] }

/-- Entry of the later file in the C2 witness. -/
def c2eB : IFCXEntry :=
  { path := "x", children := none, inherits := none,
    attributes := some [("c", JVal.jnum 2), ("d", JVal.jnum 3)] }

/-- Two visible files both defining path `x`, used to witness C2. -/
def c2Files : List IFCXFile :=
  [{ name := "A", data := { header := JVal.jnull, schemas := [], data := [c2eA] },
     visible := true, index := 0 },
   { name := "B", data := { header := JVal.jnull, schemas := [], data := [c2eB] },
     visible := true, index := 1 }]

/-- Witness for C2: B's `c` wins, A-only `c` survives under key `c`
    lookup of A when B lacks it — instantiated at the two-file
    example. -/
theorem C2_override_law_witness :
    objLookup (convertNodes (toInputNodes
        (federateFiles (c2Files.filter (fun f => f.visible))).data)) "x" =
      some (collapseNodes "x" [toInputNode c2eA, toInputNode c2eB]) ∧
    objLookup (collapseNodes "x" [toInputNode c2eA, toInputNode c2eB]).attributes "c" =
      (objLookup (toInputNode c2eB).attributes "c").or
        (objLookup (toInputNode c2eA).attributes "c") ∧
    objLookup (collapseNodes "x" [toInputNode c2eA, toInputNode c2eB]).attributes "d" =
      (objLookup (toInputNode c2eB).attributes "d").or
        (objLookup (toInputNode c2eA).attributes "d") :=
  ⟨(C2_override_law c2Files "x" c2eA c2eB rfl
      ⟨by decide, by decide, by decide⟩ ⟨by decide, by decide, by decide⟩).1,
   (C2_override_law c2Files "x" c2eA c2eB rfl
      ⟨by decide, by decide, by decide⟩ ⟨by decide, by decide, by decide⟩).2.1 "c",
   (C2_override_law c2Files "x" c2eA c2eB rfl
      ⟨by decide, by decide, by decide⟩ ⟨by decide, by decide, by decide⟩).2.1 "d"⟩

/-! Claim C4. -/

/-- C4: a sole root whose canonical node has no attributes, no children
    and at least one inherits entry is not materialized: with exactly
    one truthy inherit reference the composed root is the expansion of
    that reference's head directly, and with multiple truthy inherit
    references it is an artificial node named "Root" with empty path
    whose children are the expansions of each inherited target in
    inherits-map iteration order. -/
theorem C4_transparent_root_redirect
    (nodes : List (String × InputNode)) (schemas : List (String × JVal))
    (rootPath : String) (rn : InputNode)
    (hroot : findRootPaths nodes = [rootPath])
    (hlk : objLookup nodes rootPath = some rn)
    (hattr : rn.attributes = []) (hch : rn.children = []) (hinh : rn.inherits ≠ []) :
    (∀ ip, filterTruthy (rn.inherits.map Prod.snd) = [ip] →
        createComposedTree nodes schemas = expandNode nodes (getHead ip) []) ∧
    (∀ ip1 ip2 rest, filterTruthy (rn.inherits.map Prod.snd) = ip1 :: ip2 :: rest →
        createComposedTree nodes schemas =
          some { name := "Root", path := "", attributes := []
                 children := (filterTruthy (rn.inherits.map Prod.snd)).filterMap
                   (fun p => expandNode nodes (getHead p) [])
                 sourceFiles := [] }) := by
  have hie : rn.inherits.isEmpty = false := by
    cases h : rn.inherits with
    | nil => exact absurd h hinh
    | cons hd tl => rfl
  have hbody : createComposedTree nodes schemas =
      (match filterTruthy (rn.inherits.map Prod.snd) with
       | [inheritPath] => expandNode nodes (getHead inheritPath) []
       | inheritPaths =>
           some
             { name := "Root", path := "", attributes := []
               children :=
                 inheritPaths.filterMap (fun p => expandNode nodes (getHead p) [])
               sourceFiles := [] }) := by
    unfold createComposedTree
    rw [hroot]
    simp only [hlk, hattr, hch, hie, List.isEmpty_nil, Bool.not_false, Bool.and_true,
      Bool.true_and, if_true]
  constructor
  · intro ip hip
    rw [hbody, hip]
  · intro ip1 ip2 rest hip
    rw [hbody, hip]

/-- Redirect table with a single inherit reference, used to witness
    C4. -/
def c4Nodes : List (String × InputNode) :=
  [("root", { path := "root", children := [], inherits := [("i", some "w")],
              attributes := [] }),
   ("w", { path := "w", children := [], inherits := [],
           attributes := [("h", JVal.jstr "3")] })]

/-- Redirect table with two inherit references, used to witness C4. -/
def c4NodesMulti : List (String × InputNode) :=
  [("root", { path := "root", children := [],
              inherits := [("i", some "w"), ("j", some "v")], attributes := [] }),
   ("w", { path := "w", children := [], inherits := [],
           attributes := [("h", JVal.jstr "3")] }),
   ("v", { path := "v", children := [], inherits := [],
           attributes := [("g", JVal.jstr "4")] })]

/-- Witness for C4: both redirect branches instantiated at concrete
    tables. -/
theorem C4_transparent_root_redirect_witness :
    createComposedTree c4Nodes [] = expandNode c4Nodes (getHead "w") [] ∧
    createComposedTree c4NodesMulti [] =
      some { name := "Root", path := "", attributes := []
             children := (filterTruthy
                 ([("i", some "w"), ("j", some "v")].map Prod.snd)).filterMap
               (fun p => expandNode c4NodesMulti (getHead p) [])
             sourceFiles := [] } :=
  ⟨(C4_transparent_root_redirect c4Nodes [] "root"
      { path := "root", children := [], inherits := [("i", some "w")],
        attributes := [] }
      (by decide) rfl rfl rfl (by decide)).1 "w" (by decide),
   (C4_transparent_root_redirect c4NodesMulti [] "root"
      { path := "root", children := [],
        inherits := [("i", some "w"), ("j", some "v")], attributes := [] }
      (by decide) rfl rfl rfl (by decide)).2 "w" "v" [] (by decide)⟩

/-! Claim C5. -/

/-- Self-inheriting singleton table for the C5 counterexample. -/
def c5Nodes : List (String × InputNode) :=
  [("a", { path := "a", children := [], inherits := [("i", some "a")],
           attributes := [] })]

/-- C5 counterexample: the claim restricts root exclusion to references
    of OTHER nodes, but `findRootPaths` collects reference heads from
    every node including the node itself.  For a single node `a` that
    inherits `a`, the claim's root set is `["a"]` (`specRootPaths`,
    modelled from the spec's words), yet the source returns no root and
    composition yields null. -/
theorem C5_self_reference_counterexample :
    findRootPaths c5Nodes = [] ∧ specRootPaths c5Nodes = ["a"] ∧
    findRootPaths c5Nodes ≠ specRootPaths c5Nodes ∧
    createComposedTree c5Nodes [] = none :=
  ⟨by decide, by decide, by decide, rfl⟩

/-- C5 amended: `findRootPaths` returns exactly those paths never named
    as the head segment of ANY node's (its own included) truthy
    `children` or `inherits` reference and containing no `/`; and when
    that set is empty, `createComposedTree` returns null without
    touching anything else (it is a pure function of the node table). -/
theorem C5_amended_root_detection (nodes : List (String × InputNode))
    (schemas : List (String × JVal)) :
    (∀ p, p ∈ findRootPaths nodes ↔
        (p ∈ nodes.map Prod.fst ∧ p ∉ referencedHeads nodes ∧
         containsSlash p = false)) ∧
    (findRootPaths nodes = [] → createComposedTree nodes schemas = none) := by
  constructor
  · intro p
    unfold findRootPaths
    simp only [List.mem_filter, mem_setOfList, Bool.and_eq_true, Bool.not_eq_true',
      List.elem_iff]
    constructor
    · rintro ⟨hmem, hc, hs⟩
      refine ⟨hmem, ?_, hs⟩
      simp only [List.contains, List.elem_eq_mem, decide_eq_false_iff_not] at hc
      exact hc
    · rintro ⟨hmem, hc, hs⟩
      refine ⟨hmem, ?_, hs⟩
      simp only [List.contains, List.elem_eq_mem, decide_eq_false_iff_not]
      exact hc
  · intro h
    unfold createComposedTree
    rw [h]

/-- Witness for C5: the amended root-law applied at the counterexample
    table, discharging the empty-root hypothesis concretely. -/
theorem C5_amended_root_detection_witness :
    createComposedTree c5Nodes [] = none ∧
    ("a" ∈ findRootPaths c5Nodes ↔
      ("a" ∈ c5Nodes.map Prod.fst ∧ "a" ∉ referencedHeads c5Nodes ∧
       containsSlash "a" = false)) :=
  ⟨(C5_amended_root_detection c5Nodes []).2 (by decide),
   (C5_amended_root_detection c5Nodes []).1 "a"⟩

/-! Claim C9. -/

/-- One-file heap for the C9 counterexample: the federation's files
    array is array `0`, holding record reference `0`. -/
def c9Heap : Heap :=
  { arrays := [[0]], records := [{ name := "f", visible := true, index := 0 }] }

/-- C9 counterexample: `getFiles` (`return [...this.files]`) copies only
    the array, not the records.  The returned array (reference `1`)
    holds the same record reference `0`, and flipping `visible` through
    it changes the visibility the federation itself reads on the next
    recomposition — the claim that mutating the returned records does
    not change the federation's internal file list is false. -/
theorem C9_record_mutation_reaches_internal_state :
    (getFilesAlloc c9Heap 0).2 = 1 ∧
    (getFilesAlloc c9Heap 0).1.arrays[1]?.getD [] = [0] ∧
    internalVisibles c9Heap 0 = [true] ∧
    internalVisibles (setRecVisible (getFilesAlloc c9Heap 0).1 0 false) 0 = [false] :=
  ⟨rfl, rfl, rfl, rfl⟩

/-- C9 amended: `getFiles` returns a SHALLOW defensive copy — a freshly
    allocated array holding the same record references.  Mutating the
    returned array itself never changes the federation's own array, but
    the file records inside are shared, so mutating them does reach the
    federation (see the counterexample). -/
theorem C9_amended_shallow_copy (h : Heap) (filesArr : Nat)
    (hvalid : filesArr < h.arrays.length) (newContents : List Nat) :
    (getFilesAlloc h filesArr).1.arrays[(getFilesAlloc h filesArr).2]? =
      some (h.arrays[filesArr]?.getD []) ∧
    (getFilesAlloc h filesArr).2 ≠ filesArr ∧
    (setArrayContents (getFilesAlloc h filesArr).1 (getFilesAlloc h filesArr).2
        newContents).arrays[filesArr]? = h.arrays[filesArr]? ∧
    internalVisibles (setArrayContents (getFilesAlloc h filesArr).1
        (getFilesAlloc h filesArr).2 newContents) filesArr =
      internalVisibles h filesArr := by
  have hset : ((h.arrays ++ [h.arrays[filesArr]?.getD []]).set h.arrays.length
      newContents)[filesArr]? = h.arrays[filesArr]? := by
    rw [List.getElem?_set_ne (Nat.ne_of_gt hvalid)]
    exact List.getElem?_append_left hvalid
  refine ⟨?_, ?_, ?_, ?_⟩
  · exact List.getElem?_concat_length _ _
  · intro he
    exact Nat.lt_irrefl _ (he ▸ hvalid)
  · exact hset
  · unfold internalVisibles setArrayContents getFilesAlloc
    rw [hset]

/-- Witness for C9: the amended shallow-copy law at the one-file
    heap. -/
theorem C9_amended_shallow_copy_witness :
    (getFilesAlloc c9Heap 0).1.arrays[(getFilesAlloc c9Heap 0).2]? =
      some (c9Heap.arrays[0]?.getD []) ∧
    (getFilesAlloc c9Heap 0).2 ≠ 0 ∧
    (setArrayContents (getFilesAlloc c9Heap 0).1 (getFilesAlloc c9Heap 0).2
        []).arrays[0]? = c9Heap.arrays[0]? ∧
    internalVisibles (setArrayContents (getFilesAlloc c9Heap 0).1
        (getFilesAlloc c9Heap 0).2 []) 0 = internalVisibles c9Heap 0 :=
  C9_amended_shallow_copy c9Heap 0 (by decide) []

/-! Claim C8. -/

/-- Hidden file whose schema declares a Length quantity, for the C8
    counterexample. -/
def c8File : IFCXFile :=
  { name := "f", visible := false,
    data := { header := JVal.jnull,
              schemas := [("h", JVal.jobj [("value",
                JVal.jobj [("quantityKind", JVal.jstr "Length")])])],
              data := [] },
    index := 0 }

/-- State holding only the hidden file, for the C8 counterexample. -/
def c8State : FedState :=
  { files := [c8File], composedRoot := none, lastNotified := none }

/-- Composed node with one numeric-looking attribute, for the C8
    counterexample. -/
def c8Node : ComposedNode :=
  { name := "n", path := "n", attributes := [("h", JVal.jstr "3")],
    children := [], sourceFiles := [] }

/-- C8 counterexample: the claim says the schema dictionary is merged
    from the currently VISIBLE files, but `getFlattenedAttributes`
    reduces over `this.files` without filtering on visibility.  With a
    single hidden file declaring a Length schema for `h`, the source
    appends the `m` suffix, while the visible-files schema dictionary is
    empty and would leave the value untouched. -/
theorem C8_hidden_file_schema_used :
    getFlattenedAttributes c8State c8Node = [("h", JVal.jstr "3 m")] ∧
    flattenAttributes c8Node.attributes
      (federateFiles (c8State.files.filter (fun f => f.visible))).schemas =
      [("h", JVal.jstr "3")] :=
  ⟨rfl, rfl⟩

theorem foldl_objSet_append {α : Type} (ps : List (String × α)) (acc : List (String × α))
    (hfresh : ∀ p ∈ ps, p.1 ∉ acc.map Prod.fst)
    (hnodup : (ps.map Prod.fst).Nodup) :
    ps.foldl (fun a p => objSet a p.1 p.2) acc = acc ++ ps := by
  induction ps generalizing acc with
  | nil => simp
  | cons hd tl ih =>
      simp only [List.foldl_cons]
      rw [objSet_fresh (hfresh hd (List.mem_cons_self _ _))]
      simp only [List.map_cons, List.nodup_cons] at hnodup
      rw [ih (acc ++ [hd]) ?_ hnodup.2]
      · simp
      · intro p hp
        simp only [List.map_append, List.mem_append, List.map_cons, List.map_nil,
          List.mem_singleton]
        rintro (hin | hin)
        · exact hfresh p (List.mem_cons_of_mem _ hp) hin
        · exact hnodup.1 (hin ▸ List.mem_map_of_mem Prod.fst hp)

theorem specFlattened_keys (attrs schemas : List (String × JVal)) :
    (specFlattened attrs schemas).map Prod.fst = flatKeys attrs := by
  induction attrs with
  | nil => rfl
  | cons hd tl ih =>
      obtain ⟨k, v⟩ := hd
      cases v
      all_goals
        simp only [specFlattened, flatKeys, List.flatMap_cons, List.map_append,
          List.map_map, List.map_cons, List.map_nil]
        simp only [specFlattened, flatKeys] at ih
        rw [ih]
        try simp [Function.comp]

theorem flattenStep_eq (schemas acc : List (String × JVal)) (k : String) (v : JVal)
    (hfresh : ∀ key ∈ flatKeys [(k, v)], key ∉ acc.map Prod.fst)
    (hnodup : (flatKeys [(k, v)]).Nodup) :
    flattenStep schemas acc (k, v) = acc ++ specFlattened [(k, v)] schemas := by
  cases v
  case jobj fields =>
      simp only [flattenStep]
      have hmap : fields.foldl (fun acc f => objSet acc (k ++ "::" ++ f.1) f.2) acc =
          (fields.map (fun f => (k ++ "::" ++ f.1, f.2))).foldl
            (fun a p => objSet a p.1 p.2) acc := by
        rw [List.foldl_map]
      rw [hmap, foldl_objSet_append]
      · simp [specFlattened]
      · intro p hp
        rcases List.mem_map.mp hp with ⟨f, hf, rfl⟩
        exact hfresh _ (by
          simp only [flatKeys, List.flatMap_cons, List.flatMap_nil, List.append_nil]
          exact List.mem_map_of_mem _ hf)
      · have : (fields.map (fun f => (k ++ "::" ++ f.1, f.2))).map Prod.fst =
            fields.map (fun f => k ++ "::" ++ f.1) := by
          simp [Function.comp]
        rw [this]
        simpa [flatKeys] using hnodup
  all_goals
    simp only [flattenStep]
    rw [objSet_fresh (hfresh _ (by simp [flatKeys]))]
    simp [specFlattened]

theorem flatten_go (schemas : List (String × JVal)) :
    ∀ (attrs acc : List (String × JVal)),
      (flatKeys attrs).Nodup →
      (∀ key ∈ flatKeys attrs, key ∉ acc.map Prod.fst) →
      attrs.foldl (flattenStep schemas) acc = acc ++ specFlattened attrs schemas := by
  intro attrs
  induction attrs with
  | nil =>
      intro acc _ _
      simp [specFlattened]
  | cons hd tl ih =>
      intro acc hnodup hfresh
      obtain ⟨k, v⟩ := hd
      have hkeys : flatKeys ((k, v) :: tl) = flatKeys [(k, v)] ++ flatKeys tl := by
        simp [flatKeys]
      rw [hkeys] at hnodup hfresh
      have hsplit := List.nodup_append.mp hnodup
      rw [List.foldl_cons]
      rw [flattenStep_eq schemas acc k v
        (fun key hk => hfresh key (List.mem_append.mpr (Or.inl hk))) hsplit.1]
      rw [ih (acc ++ specFlattened [(k, v)] schemas) hsplit.2.1 ?_]
      · rw [List.append_assoc]
        congr 1
        simp [specFlattened]
      · intro key hk
        simp only [List.map_append, List.mem_append, specFlattened_keys]
        rintro (hin | hin)
        · exact hfresh key (List.mem_append.mpr (Or.inr hk)) hin
        · exact hsplit.2.2 hin hk

/-- C8 amended: `getFlattenedAttributes` flattens with the schema
    dictionary merged from ALL files in the list (visible or not, later
    files overriding).  Under that dictionary, and absent key
    collisions among the flattened keys, the result is exactly the
    claim's description (`specFlattened`): each plain-object attribute
    becomes `originalKey::subKey` entries one level deep, and every
    other attribute is kept as-is except for the Length/Area/Volume
    unit suffix.  The function reads the node's attributes without
    writing to them (it builds a fresh object). -/
theorem C8_amended_flatten_with_all_files_schemas (s : FedState) (node : ComposedNode)
    (hnodup : (flatKeys node.attributes).Nodup) :
    getFlattenedAttributes s node =
      specFlattened node.attributes
        (s.files.foldl (fun acc file => objAssign acc file.data.schemas) []) := by
  unfold getFlattenedAttributes flattenAttributes
  exact flatten_go _ node.attributes [] hnodup (by simp)

/-- Witness for C8: the amended flatten law at a concrete node carrying
    one object-valued and one unit-annotated attribute, over the
    counterexample state. -/
theorem C8_amended_flatten_with_all_files_schemas_witness :
    getFlattenedAttributes c8State
      { name := "n", path := "n",
        attributes := [("o", JVal.jobj [("u", JVal.jnum 1)]), ("h", JVal.jstr "3")],
        children := [], sourceFiles := [] } =
      specFlattened [("o", JVal.jobj [("u", JVal.jnum 1)]), ("h", JVal.jstr "3")]
        (c8State.files.foldl (fun acc file => objAssign acc file.data.schemas) []) :=
  C8_amended_flatten_with_all_files_schemas c8State
    { name := "n", path := "n",
      attributes := [("o", JVal.jobj [("u", JVal.jnum 1)]), ("h", JVal.jstr "3")],
      children := [], sourceFiles := [] }
    (by decide)
